import Mathlib

/-!
Shallow embedding of the `v-ssr-gen` CLI (src/index.js): the `ComponentName`
naming/validation logic, the `ComponentGenerator` file emitter over an abstract
filesystem state, and the `parseArgs`/`main` control flow.

Strings are modelled as Lean `String` (lists of Unicode scalar values).
JavaScript's `toUpperCase`/`toLowerCase` are modelled on the Basic Latin range
(code points 65-90 and 97-122), which is exact for the ASCII identifiers the
tool manipulates; all regex character classes used by the source
(`[a-z]`, `[A-Z]`, `[0-9]`, `[-_\s]`) are pure ASCII except `\s`, whose full
ECMAScript code-point set is embedded below.
-/

namespace VSsrGen

/-- Code points matched by the ECMAScript regex class `\s` (WhiteSpace and
LineTerminator productions): TAB, LF, VT, FF, CR, SP, NBSP, OGHAM SP, the
Zs range U+2000-U+200A, LS, PS, NNBSP, MMSP, IDEOGRAPHIC SP, ZWNBSP. -/
def isJsSpace (c : Char) : Bool :=
  decide (c.toNat = 9 ∨ c.toNat = 10 ∨ c.toNat = 11 ∨ c.toNat = 12 ∨ c.toNat = 13 ∨
          c.toNat = 32 ∨ c.toNat = 160 ∨ c.toNat = 5760 ∨
          (8192 ≤ c.toNat ∧ c.toNat ≤ 8202) ∨ c.toNat = 8232 ∨ c.toNat = 8233 ∨
          c.toNat = 8239 ∨ c.toNat = 8287 ∨ c.toNat = 12288 ∨ c.toNat = 65279)

/-- Characters matched by the class `[-_\s]` in `convertToCamelCase`:
hyphen (code 45), underscore (code 95), or ECMAScript whitespace. -/
def isSep (c : Char) : Bool :=
  decide (c.toNat = 45) || decide (c.toNat = 95) || isJsSpace c

/-- The regex class `[a-z]` (code points 97-122). -/
def isAsciiLower (c : Char) : Bool :=
  decide (97 ≤ c.toNat ∧ c.toNat ≤ 122)

/-- The regex class `[A-Z]` (code points 65-90). -/
def isAsciiUpper (c : Char) : Bool :=
  decide (65 ≤ c.toNat ∧ c.toNat ≤ 90)

/-- The regex class `[0-9]` (code points 48-57). -/
def isAsciiDigit (c : Char) : Bool :=
  decide (48 ≤ c.toNat ∧ c.toNat ≤ 57)

/-- The regex class `[a-zA-Z0-9]`. -/
def isAsciiAlphanum (c : Char) : Bool :=
  isAsciiLower c || isAsciiUpper c || isAsciiDigit c

/-- JavaScript `toUpperCase` on a single character, Basic Latin range. -/
def toUpperChar (c : Char) : Char :=
  if 97 ≤ c.toNat ∧ c.toNat ≤ 122 then Char.ofNat (c.toNat - 32) else c

/-- JavaScript `toLowerCase` on a single character, Basic Latin range. -/
def toLowerChar (c : Char) : Char :=
  if 65 ≤ c.toNat ∧ c.toNat ≤ 90 then Char.ofNat (c.toNat + 32) else c

/-- Global replacement pass of `str.replace(/[-_\s]+(.)?/g, (_, c) => c ? c.toUpperCase() : '')`
from `ComponentName.convertToCamelCase`, as the regex engine executes it: at a
separator, the greedy `[-_\s]+` consumes the maximal separator run, `(.)?`
captures the character following the run when one exists (every line
terminator is itself a separator, so the capture never fails on a following
character), and the whole match is replaced by the upper-cased capture, or by
the empty string when the run ends the input. -/
def camelReplace : List Char → List Char
  | [] => []
  | c :: rest =>
    if isSep c then
      match h : rest.dropWhile isSep with
      | [] => []
      | d :: rest' => toUpperChar d :: camelReplace rest'
    else c :: camelReplace rest
termination_by l => l.length
decreasing_by
  · have h1 : (rest.dropWhile isSep).length ≤ rest.length :=
      (List.dropWhile_sublist isSep).length_le
    rw [h] at h1
    simp at h1 ⊢
    omega
  · simp

/-- Replacement pass of `str.replace(/^([A-Z])/, c => c.toLowerCase())`:
a single leading character in `[A-Z]` is lower-cased. -/
def lowerLeading : List Char → List Char
  | [] => []
  | c :: rest => if isAsciiUpper c then toLowerChar c :: rest else c :: rest

/-- `ComponentName.convertToCamelCase` from src/index.js. -/
def convertToCamelCase (s : String) : String :=
  ⟨lowerLeading (camelReplace s.data)⟩

/-- Global replacement pass of `str.replace(/([a-z])([A-Z])/g, '$1-$2')` from
`ComponentName.toDashCase`: each match consumes a lowercase letter followed by
an uppercase letter and rewrites the pair with a hyphen in between; scanning
resumes after the consumed pair. -/
def dashReplace : List Char → List Char
  | [] => []
  | [c] => [c]
  | c :: d :: rest =>
    if isAsciiLower c && isAsciiUpper d then c :: '-' :: d :: dashReplace rest
    else c :: dashReplace (d :: rest)

/-- `ComponentName.toDashCase` from src/index.js: hyphen insertion followed by
`toLowerCase()` over the whole string. -/
def toDashCase (s : String) : String :=
  ⟨(dashReplace s.data).map toLowerChar⟩

/-- The test `/^[a-z][a-zA-Z0-9]*$/.test(name)` from `ComponentName.validate`:
anchored at both ends, so the whole string is one `[a-z]` character followed
by `[a-zA-Z0-9]` characters. -/
def isCamelCase (s : String) : Bool :=
  match s.data with
  | [] => false
  | c :: rest => isAsciiLower c && rest.all isAsciiAlphanum

/-- Result object of `ComponentName.validate`: the JS code returns
`{valid, value?}`, `{valid, message?}` or `{valid, message, suggestion}`;
absent fields are `none`. -/
structure ValidationResult where
  valid : Bool
  value : Option String
  message : Option String
  suggestion : Option String
deriving DecidableEq

/-- `ComponentName.validate` from src/index.js. The argument is `none` when
the name is absent (JS `undefined`); `!name` is true exactly on `undefined`
and the empty string. -/
def validate : Option String → ValidationResult
  | none => ⟨false, none, some "Component name is required", none⟩
  | some name =>
    if name = "" then ⟨false, none, some "Component name is required", none⟩
    else if isCamelCase name then ⟨true, some name, none, none⟩
    else ⟨false, none, some "Component name must be camelCase",
          some (convertToCamelCase name)⟩

/-- `ComponentGenerator` instance data: constructor arguments `componentName`
and `language`; `folderName` is derived below. -/
structure ComponentGenerator where
  componentName : String
  language : String
deriving DecidableEq

/-- `this.folderName = ComponentName.toDashCase(componentName)` from the
`ComponentGenerator` constructor. -/
def ComponentGenerator.folderName (g : ComponentGenerator) : String :=
  toDashCase g.componentName

/-- `generateTsContent` from src/index.js: the TypeScript logic-file template
after `.trim()` (literal braces written with escapes). -/
def ComponentGenerator.generateTsContent (g : ComponentGenerator) : String :=
  "import \x7b defineComponent \x7d from \"vue\";\n\n"
  ++ "const fs = require(\"fs\");\nconst path = require(\"path\");\n\n"
  ++ "const htmlPath = path.join(__dirname, \"" ++ g.componentName
  ++ ".component.html\");\n"
  ++ "const htmlString = fs.readFileSync(htmlPath, \x7b encoding: \"utf8\" \x7d);\n"
  ++ "const stylePath = path.join(__dirname, \"" ++ g.componentName
  ++ ".component.style.html\");\n"
  ++ "const styleString = fs.readFileSync(stylePath, \x7b encoding: \"utf8\" \x7d);\n"
  ++ "const templateString = htmlString + styleString;\n\n"
  ++ "export const " ++ g.componentName ++ " = defineComponent(\x7b\n"
  ++ "    props: \x7b\n"
  ++ "        title: \x7b type: String, default: \"\" \x7d,\n"
  ++ "    \x7d,\n"
  ++ "    template: templateString\n"
  ++ "\x7d);"

/-- `generateJsContent` from src/index.js: identical to the TS template except
for the formatting of the `title` prop object. -/
def ComponentGenerator.generateJsContent (g : ComponentGenerator) : String :=
  "import \x7b defineComponent \x7d from \"vue\";\n\n"
  ++ "const fs = require(\"fs\");\nconst path = require(\"path\");\n\n"
  ++ "const htmlPath = path.join(__dirname, \"" ++ g.componentName
  ++ ".component.html\");\n"
  ++ "const htmlString = fs.readFileSync(htmlPath, \x7b encoding: \"utf8\" \x7d);\n"
  ++ "const stylePath = path.join(__dirname, \"" ++ g.componentName
  ++ ".component.style.html\");\n"
  ++ "const styleString = fs.readFileSync(stylePath, \x7b encoding: \"utf8\" \x7d);\n"
  ++ "const templateString = htmlString + styleString;\n\n"
  ++ "export const " ++ g.componentName ++ " = defineComponent(\x7b\n"
  ++ "    props: \x7b\n"
  ++ "        title: \x7b\n"
  ++ "            type: String,\n"
  ++ "            default: \"\"\n"
  ++ "        \x7d\n"
  ++ "    \x7d,\n"
  ++ "    template: templateString\n"
  ++ "\x7d);"

/-- `generateHtmlContent` from src/index.js. -/
def ComponentGenerator.generateHtmlContent (_g : ComponentGenerator) : String :=
  "<div>\x7b\x7btitle\x7d\x7d</div>"

/-- `generateStyleContent` from src/index.js. -/
def ComponentGenerator.generateStyleContent (_g : ComponentGenerator) : String :=
  "<style></style>"

/-- Abstract filesystem state under the current working directory: the
directories that exist, and the files written so far as
(directory, filename, content) triples in write order. -/
structure GenState where
  dirs : List String
  files : List (String × String × String)
deriving DecidableEq

/-- The `files` array built inside `ComponentGenerator.create`, in source
order: logic file (TS or JS by `this.language === 'ts'`), template HTML,
style HTML. -/
def ComponentGenerator.filesList (g : ComponentGenerator) : List (String × String) :=
  [(g.componentName ++ ".component." ++ g.language,
      if g.language = "ts" then g.generateTsContent else g.generateJsContent),
   (g.componentName ++ ".component.html", g.generateHtmlContent),
   (g.componentName ++ ".component.style.html", g.generateStyleContent)]

/-- `ComponentGenerator.create` from src/index.js over the abstract
filesystem: if the target directory exists the process exits with code 1 and
the state is unchanged; otherwise the directory is created and the three
files are written into it in order. The second component is the exit code
(`some 1` for `process.exit(1)`, `none` when `create` returns normally). -/
def ComponentGenerator.create (g : ComponentGenerator) (st : GenState) :
    GenState × Option Nat :=
  if g.folderName ∈ st.dirs then (st, some 1)
  else
    (⟨st.dirs ++ [g.folderName],
      st.files ++ g.filesList.map (fun f => (g.folderName, f.1, f.2))⟩, none)

/-- The record returned by `parseArgs`. -/
structure ParsedArgs where
  componentName : Option String
  language : String
deriving DecidableEq

/-- JavaScript `String.prototype.toLowerCase`, Basic Latin range. -/
def jsToLowerCase (s : String) : String :=
  ⟨s.data.map toLowerChar⟩

/-- The argument loop of `parseArgs`: each position is inspected; `-n` or
`--name` stores `args[i+1]` (possibly absent); `-l` or `--language` lower-cases `args[i+1]`
and either stores it (when it is `js` or `ts`) or exits with code 1. The
loop advances one position at a time, so a flag value is itself inspected as
a potential flag, exactly as in the source. -/
def parseArgsAux : List String → Option String → String → Except Nat ParsedArgs
  | [], name, lang => .ok ⟨name, lang⟩
  | a :: rest, name, lang =>
    let name' := if a = "-n" ∨ a = "--name" then rest.head? else name
    if a = "-l" ∨ a = "--language" then
      match rest with
      | [] => .error 1
      | v :: _ =>
        if jsToLowerCase v = "js" ∨ jsToLowerCase v = "ts" then
          parseArgsAux rest name' (jsToLowerCase v)
        else .error 1
    else parseArgsAux rest name' lang

/-- `parseArgs` from src/index.js: loop over the arguments with
`componentName` initially absent and `language = 'ts'`. -/
def parseArgs (args : List String) : Except Nat ParsedArgs :=
  parseArgsAux args none "ts"

/-- `main` from src/index.js over the abstract filesystem: parse the
arguments (an invalid language exits before anything is written), exit 1 when
the name is `undefined` or empty, validate, and run the generator on the
name itself or on a truthy (non-empty) suggestion; a falsy suggestion exits 1. -/
def mainRun (args : List String) (st : GenState) : GenState × Option Nat :=
  match parseArgs args with
  | .error c => (st, some c)
  | .ok pa =>
    match pa.componentName with
    | none => (st, some 1)
    | some name =>
      if name = "" then (st, some 1)
      else
        let validation := validate (some name)
        if validation.valid then ComponentGenerator.create ⟨name, pa.language⟩ st
        else
          match validation.suggestion with
          | some s =>
            if s = "" then (st, some 1)
            else ComponentGenerator.create ⟨s, pa.language⟩ st
          | none => (st, some 1)

/-- Modelled from the spec's wording for `toCamelCase` (§4.1): separators are
deleted, and a character immediately preceded by a separator — i.e. the single
character closing a separator run — is upper-cased; a trailing run with no
following character contributes nothing. The Boolean argument records whether
the previous character was a separator. -/
def camelSpecMark : List Char → Bool → List Char
  | [], _ => []
  | c :: rest, prevSep =>
    if isSep c then camelSpecMark rest true
    else (if prevSep then toUpperChar c else c) :: camelSpecMark rest false

/-- Modelled from the spec's wording (§4.1): `toCamelCase` is the run
replacement followed by lower-casing a single leading uppercase letter. -/
def toCamelCaseSpecModel (s : String) : String :=
  ⟨lowerLeading (camelSpecMark s.data false)⟩

/-- Modelled from the spec's wording for `toDashCase` (§4.1): a hyphen is
inserted between every adjacent lowercase-then-uppercase pair; the scan keeps
the second element of each pair as a candidate first element of the next pair. -/
def insertDashPairs : List Char → List Char
  | [] => []
  | [c] => [c]
  | c :: d :: rest =>
    if isAsciiLower c && isAsciiUpper d then c :: '-' :: insertDashPairs (d :: rest)
    else c :: insertDashPairs (d :: rest)

/-- Modelled from the spec's wording (§4.1): `toDashCase` is pairwise hyphen
insertion followed by lower-casing the whole string. -/
def toDashCaseSpecModel (s : String) : String :=
  ⟨(insertDashPairs s.data).map toLowerChar⟩

theorem toNat_ofNat_valid {n : Nat} (h : n.isValidChar) : (Char.ofNat n).toNat = n := by
  rw [Char.ofNat, dif_pos h]
  simp [Char.ofNatAux, Char.toNat, UInt32.toNat]

theorem toNat_toLowerChar (c : Char) :
    (toLowerChar c).toNat =
      if 65 ≤ c.toNat ∧ c.toNat ≤ 90 then c.toNat + 32 else c.toNat := by
  unfold toLowerChar
  split
  · next h => exact toNat_ofNat_valid (Or.inl (by omega))
  · rfl

theorem toLowerChar_eq_self_of_not_upper (c : Char)
    (h : ¬(65 ≤ c.toNat ∧ c.toNat ≤ 90)) : toLowerChar c = c := by
  simp [toLowerChar, h]

theorem toLowerChar_toLowerChar (c : Char) :
    toLowerChar (toLowerChar c) = toLowerChar c := by
  apply toLowerChar_eq_self_of_not_upper
  rw [toNat_toLowerChar]
  split <;> omega

theorem isAsciiUpper_toLowerChar (c : Char) :
    isAsciiUpper (toLowerChar c) = false := by
  simp only [isAsciiUpper, toNat_toLowerChar, decide_eq_false_iff_not]
  split <;> omega

theorem isSep_eq_false_of_alphanum (c : Char) (h : isAsciiAlphanum c = true) :
    isSep c = false := by
  simp only [isAsciiAlphanum, isAsciiLower, isAsciiUpper, isAsciiDigit,
    Bool.or_eq_true, decide_eq_true_eq] at h
  simp only [isSep, isJsSpace, Bool.or_eq_false_iff, decide_eq_false_iff_not]
  omega

theorem camelReplace_nil : camelReplace [] = [] := by
  rw [camelReplace]

theorem camelReplace_cons_nosep (c : Char) (rest : List Char)
    (hsep : isSep c = false) :
    camelReplace (c :: rest) = c :: camelReplace rest := by
  rw [camelReplace]
  simp [hsep]

theorem camelReplace_cons_sep (c : Char) (rest : List Char)
    (hsep : isSep c = true) :
    camelReplace (c :: rest) =
      match rest.dropWhile isSep with
      | [] => []
      | d :: rest' => toUpperChar d :: camelReplace rest' := by
  rw [camelReplace]
  simp only [hsep, if_true]
  split
  · next h => rw [h]
  · next d rest' h => rw [h]

theorem camelReplace_eq_self (l : List Char) (h : ∀ c ∈ l, isSep c = false) :
    camelReplace l = l := by
  induction l with
  | nil => exact camelReplace_nil
  | cons c rest ih =>
    have hc : isSep c = false := h c (List.mem_cons_self c rest)
    rw [camelReplace_cons_nosep c rest hc]
    rw [ih fun a ha => h a (List.mem_cons_of_mem c ha)]

theorem camelReplace_ne_nil (l : List Char) (c : Char) (hc : c ∈ l)
    (hns : isSep c = false) : camelReplace l ≠ [] := by
  match l, hc with
  | a :: rest, hc =>
    by_cases ha : isSep a = true
    · rw [camelReplace_cons_sep a rest ha]
      split
      · next hdrop =>
        have hall : ∀ x ∈ rest, isSep x = true :=
          List.dropWhile_eq_nil_iff.mp hdrop
        rcases List.mem_cons.mp hc with rfl | hmem
        · rw [ha] at hns; cases hns
        · rw [hall c hmem] at hns; cases hns
      · simp
    · rw [camelReplace_cons_nosep a rest (by simpa using ha)]
      simp

theorem lowerLeading_length (l : List Char) :
    (lowerLeading l).length = l.length := by
  cases l with
  | nil => rfl
  | cons c rest => rw [lowerLeading]; split <;> rfl

theorem camelSpecMark_true_eq (rest : List Char) :
    camelSpecMark rest true =
      match rest.dropWhile isSep with
      | [] => []
      | d :: rest' => toUpperChar d :: camelSpecMark rest' false := by
  induction rest with
  | nil => rfl
  | cons e rest2 ih =>
    by_cases he : isSep e = true
    · rw [camelSpecMark]
      simp only [he, if_true]
      rw [ih, List.dropWhile_cons_of_pos he]
    · rw [camelSpecMark]
      simp only [he, Bool.false_eq_true, if_false, if_true]
      rw [List.dropWhile_cons_of_neg (by simp [he])]

theorem camelReplace_eq_specMark (l : List Char) :
    camelReplace l = camelSpecMark l false := by
  induction l using camelReplace.induct with
  | case1 => exact camelReplace_nil
  | case2 c rest hsep hdrop =>
    rw [camelReplace_cons_sep c rest hsep, hdrop]
    rw [camelSpecMark]
    simp only [hsep, if_true]
    rw [camelSpecMark_true_eq, hdrop]
  | case3 c rest hsep d rest' hdrop ih =>
    rw [camelReplace_cons_sep c rest hsep, hdrop]
    rw [camelSpecMark]
    simp only [hsep, if_true]
    rw [camelSpecMark_true_eq, hdrop, ih]
  | case4 c rest hsep ih =>
    rw [camelReplace_cons_nosep c rest (by simpa using hsep)]
    rw [camelSpecMark]
    simp only [hsep, Bool.false_eq_true, if_false]
    rw [ih]

theorem dashReplace_eq_insertDashPairs (l : List Char) :
    insertDashPairs l = dashReplace l := by
  induction l using dashReplace.induct with
  | case1 => rfl
  | case2 c => rfl
  | case3 c d rest hcd ih =>
    rw [insertDashPairs, dashReplace]
    simp only [hcd, if_true, List.cons.injEq, true_and]
    have hdu : isAsciiUpper d = true := by
      rcases Bool.and_eq_true_iff.mp hcd with ⟨_, h2⟩; exact h2
    have hdl : isAsciiLower d = false := by
      simp only [isAsciiLower, decide_eq_false_iff_not]
      simp only [isAsciiUpper, decide_eq_true_eq] at hdu
      omega
    cases rest with
    | nil => rfl
    | cons e rest2 =>
      rw [insertDashPairs]
      simp only [hdl, Bool.false_and, Bool.false_eq_true, if_false,
        List.cons.injEq, true_and]
      rw [ih]
  | case4 c d rest hcd ih =>
    rw [insertDashPairs, dashReplace]
    simp only [hcd, Bool.false_eq_true, if_false, List.cons.injEq, true_and]
    rw [ih]

theorem dashReplace_eq_self_of_no_upper (l : List Char)
    (h : ∀ c ∈ l, isAsciiUpper c = false) : dashReplace l = l := by
  induction l using dashReplace.induct with
  | case1 => rfl
  | case2 c => rfl
  | case3 c d rest hcd ih =>
    rcases Bool.and_eq_true_iff.mp hcd with ⟨_, h2⟩
    have := h d (List.mem_cons_of_mem c (List.mem_cons_self d rest))
    rw [this] at h2
    cases h2
  | case4 c d rest hcd ih =>
    rw [dashReplace]
    simp only [hcd, Bool.false_eq_true, if_false, List.cons.injEq, true_and]
    exact ih fun a ha => h a (List.mem_cons_of_mem c ha)

theorem toDashCase_toDashCase (s : String) :
    toDashCase (toDashCase s) = toDashCase s := by
  show toDashCase ⟨(dashReplace s.data).map toLowerChar⟩ = _
  unfold toDashCase
  have hnu : ∀ c ∈ (dashReplace s.data).map toLowerChar, isAsciiUpper c = false := by
    intro c hc
    rcases List.mem_map.mp hc with ⟨a, _, rfl⟩
    exact isAsciiUpper_toLowerChar a
  rw [show (String.mk ((dashReplace s.data).map toLowerChar)).data
        = (dashReplace s.data).map toLowerChar from rfl]
  rw [dashReplace_eq_self_of_no_upper _ hnu, List.map_map]
  congr 1
  apply List.map_congr_left
  intro a _
  exact toLowerChar_toLowerChar a

theorem parseArgsAux_lang_nil (a : String) (name : Option String) (lang : String)
    (hal : a = "-l" ∨ a = "--language") :
    parseArgsAux [a] name lang = .error 1 := by
  simp only [parseArgsAux]
  rw [if_pos hal]

theorem parseArgsAux_lang_cons (a v : String) (rest2 : List String)
    (name : Option String) (lang : String) (hal : a = "-l" ∨ a = "--language") :
    parseArgsAux (a :: v :: rest2) name lang =
      if jsToLowerCase v = "js" ∨ jsToLowerCase v = "ts" then
        parseArgsAux (v :: rest2)
          (if a = "-n" ∨ a = "--name" then some v else name) (jsToLowerCase v)
      else .error 1 := by
  simp only [parseArgsAux]
  rw [if_pos hal]
  simp only [List.head?_cons]

theorem parseArgsAux_nolang (a : String) (rest : List String)
    (name : Option String) (lang : String)
    (hal : ¬(a = "-l" ∨ a = "--language")) :
    parseArgsAux (a :: rest) name lang =
      parseArgsAux rest
        (if a = "-n" ∨ a = "--name" then rest.head? else name) lang := by
  simp only [parseArgsAux]
  rw [if_neg hal]

theorem parseArgsAux_error_of_bad_lang :
    ∀ (i : Nat) (l : List String) (name : Option String) (lang : String),
      (l[i]? = some "-l" ∨ l[i]? = some "--language") →
      (∀ v, l[i+1]? = some v → jsToLowerCase v ≠ "js" ∧ jsToLowerCase v ≠ "ts") →
      parseArgsAux l name lang = .error 1 := by
  intro i
  induction i with
  | zero =>
    intro l name lang hflag hbad
    match l with
    | [] => simp at hflag
    | a :: rest =>
      have ha : a = "-l" ∨ a = "--language" := by
        simpa only [List.getElem?_cons_zero, Option.some.injEq] using hflag
      cases rest with
      | nil => exact parseArgsAux_lang_nil a name lang ha
      | cons v rest2 =>
        rw [parseArgsAux_lang_cons a v rest2 name lang ha]
        have hb := hbad v (by simp)
        have hnok : ¬(jsToLowerCase v = "js" ∨ jsToLowerCase v = "ts") := by
          rintro (h1 | h1)
          · exact hb.1 h1
          · exact hb.2 h1
        rw [if_neg hnok]
  | succ j ih =>
    intro l name lang hflag hbad
    match l with
    | [] => simp at hflag
    | a :: rest =>
      simp only [List.getElem?_cons_succ] at hflag hbad
      by_cases hal : a = "-l" ∨ a = "--language"
      · cases rest with
        | nil => exact parseArgsAux_lang_nil a name lang hal
        | cons v rest2 =>
          rw [parseArgsAux_lang_cons a v rest2 name lang hal]
          by_cases hok : jsToLowerCase v = "js" ∨ jsToLowerCase v = "ts"
          · rw [if_pos hok]
            exact ih (v :: rest2) _ _ hflag hbad
          · rw [if_neg hok]
      · rw [parseArgsAux_nolang a rest name lang hal]
        exact ih rest _ lang hflag hbad

theorem parseArgsAux_ok_of_no_lang_flag :
    ∀ (l : List String) (name : Option String) (lang : String),
      (∀ a ∈ l, a ≠ "-l" ∧ a ≠ "--language") →
      ∃ n, parseArgsAux l name lang = .ok ⟨n, lang⟩ := by
  intro l
  induction l with
  | nil => intro name lang _; exact ⟨name, rfl⟩
  | cons a rest ih =>
    intro name lang h
    have ha := h a (List.mem_cons_self a rest)
    have hal : ¬(a = "-l" ∨ a = "--language") := by
      rintro (h1 | h1)
      · exact ha.1 h1
      · exact ha.2 h1
    rw [parseArgsAux_nolang a rest name lang hal]
    exact ih _ lang fun b hb => h b (List.mem_cons_of_mem a hb)

/-- C1: every string matching the pattern `^[a-z][a-zA-Z0-9]*$` is accepted by
`validate`, which returns a valid result whose `value` field is the input
string unchanged, with no message and no suggestion. -/
theorem validate_accepts_camelCase (name : String) (h : isCamelCase name = true) :
    validate (some name) = ⟨true, some name, none, none⟩ := by
  have hne : name ≠ "" := by
    intro he
    rw [he] at h
    exact absurd h (by decide)
  simp [validate, hne, h]

theorem validate_accepts_camelCase_witness :
    isCamelCase "userProfile" = true ∧
      validate (some "userProfile") =
        ⟨true, some "userProfile", none, none⟩ :=
  ⟨by decide, validate_accepts_camelCase "userProfile" (by decide)⟩

/-- C2: `validate` fails in exactly two ways: on an absent or empty name it
returns invalid with message "Component name is required" and no suggestion;
on a non-empty name failing the camelCase pattern it returns invalid with
message "Component name must be camelCase" and suggestion
`convertToCamelCase name`. -/
theorem validate_failure_modes (o : Option String) :
    (validate o).valid = false ↔
      ((o = none ∨ o = some "") ∧
        validate o = ⟨false, none, some "Component name is required", none⟩) ∨
      (∃ name, o = some name ∧ name ≠ "" ∧ isCamelCase name = false ∧
        validate o = ⟨false, none, some "Component name must be camelCase",
          some (convertToCamelCase name)⟩) := by
  cases o with
  | none =>
    constructor
    · intro _
      exact Or.inl ⟨Or.inl rfl, rfl⟩
    · intro _
      rfl
  | some name =>
    by_cases he : name = ""
    · subst he
      constructor
      · intro _
        exact Or.inl ⟨Or.inr rfl, by simp [validate]⟩
      · intro _
        simp [validate]
    · by_cases hc : isCamelCase name = true
      · have hv : validate (some name) = ⟨true, some name, none, none⟩ := by
          simp [validate, he, hc]
        rw [hv]
        simp [he]
      · have hc' : isCamelCase name = false := by simpa using hc
        have hv : validate (some name) =
            ⟨false, none, some "Component name must be camelCase",
              some (convertToCamelCase name)⟩ := by
          simp [validate, he, hc']
        rw [hv]
        constructor
        · intro _
          exact Or.inr ⟨name, rfl, he, hc', rfl⟩
        · intro _
          rfl

/-- C3: `convertToCamelCase` behaves exactly as the spec describes it — every
run of separator characters together with the single character following it
(if any) is replaced by that character upper-cased, trailing runs are
dropped, and a single leading uppercase letter is then lower-cased. -/
theorem convertToCamelCase_matches_spec (s : String) :
    convertToCamelCase s = toCamelCaseSpecModel s := by
  unfold convertToCamelCase toCamelCaseSpecModel
  rw [camelReplace_eq_specMark]

/-- C4: `toDashCase` behaves exactly as the spec describes it — a hyphen is
inserted between every adjacent lowercase-then-uppercase pair and the whole
resulting string is then lower-cased. -/
theorem toDashCase_matches_spec (s : String) :
    toDashCase s = toDashCaseSpecModel s := by
  unfold toDashCase toDashCaseSpecModel
  rw [dashReplace_eq_insertDashPairs]

/-- C5 counterexample: the input "-" is non-empty and fails the camelCase
pattern, yet `validate` returns it with the EMPTY string as suggestion — the
claim that the suggestion is always non-empty is false. -/
theorem validate_empty_suggestion_counterexample :
    "-" ≠ "" ∧ isCamelCase "-" = false ∧
      (validate (some "-")).suggestion = some "" := by
  refine ⟨by decide, by decide, ?_⟩
  have h1 : camelReplace ['-'] = [] := by
    rw [camelReplace_cons_sep '-' [] (by decide)]
    rfl
  have h3 : convertToCamelCase "-" = "" := by
    unfold convertToCamelCase
    rw [show ("-" : String).data = ['-'] from rfl, h1]
    rfl
  have h2 : validate (some "-") =
      ⟨false, none, some "Component name must be camelCase",
        some (convertToCamelCase "-")⟩ := by
    simp only [validate]
    rw [if_neg (show ¬("-" : String) = "" by decide)]
    rw [if_neg (show ¬isCamelCase "-" = true by decide)]
  rw [h2, h3]

/-- C5 (amended): for every non-empty input failing the pattern, `validate`
returns invalid with the suggestion field present and equal to
`convertToCamelCase name`; the suggestion is non-empty whenever the name
contains at least one non-separator character (it is empty when the name
consists only of hyphen/underscore/whitespace characters, e.g. "-"). -/
theorem validate_invalid_has_suggestion (name : String) (h1 : name ≠ "")
    (h2 : isCamelCase name = false) :
    (validate (some name)).valid = false ∧
    (validate (some name)).suggestion = some (convertToCamelCase name) ∧
    ((∃ c ∈ name.data, isSep c = false) → convertToCamelCase name ≠ "") := by
  have hv : validate (some name) =
      ⟨false, none, some "Component name must be camelCase",
        some (convertToCamelCase name)⟩ := by
    simp [validate, h1, h2]
  refine ⟨by rw [hv], by rw [hv], ?_⟩
  rintro ⟨c, hc, hcs⟩ he
  have hdata : lowerLeading (camelReplace name.data) = [] := by
    have := congrArg String.data he
    simpa [convertToCamelCase] using this
  have hnil : camelReplace name.data = [] := by
    cases hcr : camelReplace name.data with
    | nil => rfl
    | cons a l =>
      rw [hcr, lowerLeading] at hdata
      split at hdata <;> cases hdata
  exact camelReplace_ne_nil name.data c hc hcs hnil

theorem validate_invalid_has_suggestion_witness :
    "user-profile" ≠ "" ∧ isCamelCase "user-profile" = false ∧
      ((validate (some "user-profile")).valid = false ∧
       (validate (some "user-profile")).suggestion =
         some (convertToCamelCase "user-profile") ∧
       ((∃ c ∈ "user-profile".data, isSep c = false) →
         convertToCamelCase "user-profile" ≠ "")) :=
  ⟨by decide, by decide,
    validate_invalid_has_suggestion "user-profile" (by decide) (by decide)⟩

/-- C6: when the target directory `toDashCase(componentName)` already exists,
`create` exits the process with status 1 and leaves the filesystem state
completely unchanged — no directory and no file is written. -/
theorem create_when_dir_exists (g : ComponentGenerator) (st : GenState)
    (h : toDashCase g.componentName ∈ st.dirs) :
    g.create st = (st, some 1) := by
  simp [ComponentGenerator.create, ComponentGenerator.folderName, h]

theorem create_when_dir_exists_witness :
    toDashCase "userProfile" ∈ (GenState.mk ["user-profile"] []).dirs ∧
      ComponentGenerator.create ⟨"userProfile", "ts"⟩ ⟨["user-profile"], []⟩ =
        (⟨["user-profile"], []⟩, some 1) :=
  ⟨by decide,
    create_when_dir_exists ⟨"userProfile", "ts"⟩ ⟨["user-profile"], []⟩ (by decide)⟩

/-- C7: on a successful run `create` creates the dash-case directory and
writes exactly three files into it, in order: the language-dependent logic
file `<identifier>.component.<language>`, the template
`<identifier>.component.html` containing a single div interpolating the
`title` prop, and `<identifier>.component.style.html` containing an empty
style block; nothing else is written. -/
theorem create_success_files (g : ComponentGenerator) (st : GenState)
    (h : g.folderName ∉ st.dirs) :
    g.create st =
      (⟨st.dirs ++ [g.folderName],
        st.files ++
          [(g.folderName, g.componentName ++ ".component." ++ g.language,
              if g.language = "ts" then g.generateTsContent
              else g.generateJsContent),
           (g.folderName, g.componentName ++ ".component.html",
              "<div>\x7b\x7btitle\x7d\x7d</div>"),
           (g.folderName, g.componentName ++ ".component.style.html",
              "<style></style>")]⟩, none) := by
  unfold ComponentGenerator.create
  rw [if_neg h]
  rfl

theorem create_success_files_witness :
    ComponentGenerator.folderName ⟨"userProfile", "ts"⟩ ∉
        (GenState.mk [] []).dirs ∧
      ComponentGenerator.create ⟨"userProfile", "ts"⟩ ⟨[], []⟩ =
        (⟨["user-profile"],
          [("user-profile", "userProfile.component.ts",
             ComponentGenerator.generateTsContent ⟨"userProfile", "ts"⟩),
           ("user-profile", "userProfile.component.html",
             "<div>\x7b\x7btitle\x7d\x7d</div>"),
           ("user-profile", "userProfile.component.style.html",
             "<style></style>")]⟩, none) := by
  refine ⟨by decide, ?_⟩
  have h := create_success_files ⟨"userProfile", "ts"⟩ ⟨[], []⟩ (by decide)
  rw [h]
  rfl

/-- C8: any `-l` or `--language` flag whose value is missing or, lower-cased,
differs from both "js" and "ts" makes the run exit with status 1 with the
filesystem untouched; and when no language flag appears at all, parsing
succeeds with the default language "ts". -/
theorem language_flag_contract :
    (∀ (args : List String) (st : GenState) (i : Nat),
        (args[i]? = some "-l" ∨ args[i]? = some "--language") →
        (∀ v, args[i + 1]? = some v →
            jsToLowerCase v ≠ "js" ∧ jsToLowerCase v ≠ "ts") →
        mainRun args st = (st, some 1)) ∧
    (∀ args : List String,
        (∀ a ∈ args, a ≠ "-l" ∧ a ≠ "--language") →
        ∃ n, parseArgs args = .ok ⟨n, "ts"⟩) := by
  constructor
  · intro args st i hflag hbad
    have herr : parseArgs args = .error 1 :=
      parseArgsAux_error_of_bad_lang i args none "ts" hflag hbad
    unfold mainRun
    rw [herr]
  · intro args h
    exact parseArgsAux_ok_of_no_lang_flag args none "ts" h

theorem language_flag_contract_witness :
    mainRun ["-l", "xx"] ⟨[], []⟩ = (⟨[], []⟩, some 1) ∧
      ∃ n, parseArgs ["-n", "foo"] = .ok ⟨n, "ts"⟩ := by
  constructor
  · apply language_flag_contract.1 ["-l", "xx"] ⟨[], []⟩ 0
    · exact Or.inl rfl
    · intro v hv
      simp at hv
      subst hv
      exact ⟨by decide, by decide⟩
  · exact language_flag_contract.2 ["-n", "foo"] (by decide)

/-- C9: applying `toDashCase` a second time to
`toDashCase (convertToCamelCase x)` returns that value unchanged, for every
string `x` — `toDashCase` is idempotent on its own output. -/
theorem toDashCase_idempotent_on_output (x : String) :
    toDashCase (toDashCase (convertToCamelCase x)) =
      toDashCase (convertToCamelCase x) :=
  toDashCase_toDashCase (convertToCamelCase x)

/-- C10: `convertToCamelCase` is the identity on every string already
matching `^[a-z][a-zA-Z0-9]*$` — normalizing an already-valid name never
alters it. -/
theorem convertToCamelCase_fixes_valid (s : String)
    (h : isCamelCase s = true) : convertToCamelCase s = s := by
  unfold convertToCamelCase
  rw [isCamelCase] at h
  cases hd : s.data with
  | nil => rw [hd] at h; exact absurd h (by simp)
  | cons c rest =>
    rw [hd] at h
    obtain ⟨h1, h2⟩ := Bool.and_eq_true_iff.mp h
    have hall : ∀ a ∈ c :: rest, isSep a = false := by
      intro a ha
      rcases List.mem_cons.mp ha with rfl | hmem
      · exact isSep_eq_false_of_alphanum a (by simp [isAsciiAlphanum, h1])
      · exact isSep_eq_false_of_alphanum a (List.all_eq_true.mp h2 a hmem)
    rw [camelReplace_eq_self _ hall]
    rw [lowerLeading]
    have hcu : isAsciiUpper c = false := by
      simp only [isAsciiLower, decide_eq_true_eq] at h1
      simp only [isAsciiUpper, decide_eq_false_iff_not]
      omega
    rw [if_neg (by simp [hcu])]
    rw [← hd]

theorem convertToCamelCase_fixes_valid_witness :
    isCamelCase "dataTable" = true ∧
      convertToCamelCase "dataTable" = "dataTable" :=
  ⟨by decide, convertToCamelCase_fixes_valid "dataTable" (by decide)⟩

end VSsrGen
